import Mathlib

/-!
Shallow embedding of `src/model.py` (class `RandomForestModel`) of the
repository, together with the behaviour of the scikit-learn components the
class delegates to (`StandardScaler`, `RandomForestClassifier`, the metric
functions) and a small file-system model for `save`/`load`.

Numeric values are embedded as rationals (`ℚ`); Python floats are modelled at
rational precision.  Fallible operations return `Except MLError`.
-/

/-- Error conditions surfaced by the embedded operations.  They model the
Python exceptions raised inside `model.py` and by the scikit-learn calls it
makes: `invalidInput` is the `ValueError` of sklearn input validation (empty
input / zero features / inconsistent lengths), `dimensionMismatch` is the
`ValueError` raised when the column count differs from the fitted
`n_features_in_`, `notFitted` is sklearn's `NotFittedError`, `fileNotFound`
is Python's `FileNotFoundError`, `jsonDecode` is `json.JSONDecodeError`, and
`unpickleErr` stands for a failed deserialization of a torn or foreign file. -/
inductive MLError
  | invalidInput
  | dimensionMismatch
  | notFitted
  | fileNotFound (path : String)
  | jsonDecode
  | unpickleErr
  deriving DecidableEq, Repr

/-! ## Configuration constants (`src/config.py`) -/

def N_ESTIMATORS : Nat := 100

def MAX_DEPTH : Nat := 10

def MIN_SAMPLES_SPLIT : Nat := 5

def MIN_SAMPLES_LEAF : Nat := 2

def RANDOM_STATE : Nat := 42

/-! ## Preprocessor (sklearn `StandardScaler`, used at `model.py` line 41) -/

/-- Fitted state of a `StandardScaler`: per-feature mean (`mean_`) and
per-feature divisor (`scale_`). -/
structure Scaler where
  mean : List ℚ
  scale : List ℚ
  deriving DecidableEq, Repr

/-- The `StandardScaler` object itself; `fitted = none` before `fit`. -/
structure StandardScaler where
  fitted : Option Scaler
  deriving DecidableEq, Repr

def meanQ (l : List ℚ) : ℚ := l.sum / (l.length : ℚ)

/-- Biased variance, as `numpy` computes it for `StandardScaler.var_`. -/
def varianceQ (l : List ℚ) : ℚ := meanQ (l.map (fun x => (x - meanQ l) ^ 2))

/-- `np.sqrt` modelled at rational precision (exact on perfect squares; for
the properties proved below only zero versus nonzero matters, and
`ratSqrt v = 0` exactly when `v ≤ 0`). -/
def ratSqrt (q : ℚ) : ℚ := (Int.sqrt q.num : ℚ) / (Nat.sqrt q.den : ℚ)

/-- sklearn's `_handle_zeros_in_scale`: a zero standard deviation (constant
feature) is replaced by `1` so that `transform` never divides by zero. -/
def mkScale (v : ℚ) : ℚ := if ratSqrt v = 0 then 1 else ratSqrt v

/-- Column `j` of a row-major matrix. -/
def col (X : List (List ℚ)) (j : Nat) : List ℚ := X.map (fun r => r.getD j 0)

/-- The column count of a row-major matrix (`X.shape[1]`). -/
def matrixWidth (X : List (List ℚ)) : Nat := (X.headD []).length

/-- `StandardScaler.fit`: sklearn's `check_array` rejects an empty matrix or a
zero feature count with `ValueError`; otherwise per-feature mean and scale
are computed, constant features getting scale `1`. -/
def StandardScaler.fitFn (X : List (List ℚ)) : Except MLError Scaler :=
  if X.length = 0 ∨ matrixWidth X = 0 then .error .invalidInput
  else
    .ok { mean := (List.range (matrixWidth X)).map (fun j => meanQ (col X j)),
          scale := (List.range (matrixWidth X)).map (fun j => mkScale (varianceQ (col X j))) }

/-- `(x - mean_) / scale_` elementwise. -/
def transformRow (sc : Scaler) (r : List ℚ) : List ℚ :=
  List.zipWith (fun x p => (x - p.1) / p.2) r (sc.mean.zip sc.scale)

/-- `StandardScaler.transform` on fitted state: sklearn's `check_array`
(`ensure_min_samples=1`) rejects an empty batch with `ValueError`, and the
column count must equal the fitted `n_features_in_` (= `mean_.length`), else
sklearn raises the dimension-mismatch `ValueError`. -/
def Scaler.transformFn (sc : Scaler) (X : List (List ℚ)) : Except MLError (List (List ℚ)) :=
  if X.length = 0 then .error .invalidInput
  else if X.all (fun r => r.length == sc.mean.length) then .ok (X.map (transformRow sc))
  else .error .dimensionMismatch

def StandardScaler.transform (ss : StandardScaler) (X : List (List ℚ)) :
    Except MLError (List (List ℚ)) :=
  match ss.fitted with
  | none => .error .notFitted
  | some sc => sc.transformFn X

/-- `StandardScaler.fit_transform`: `fit` then `transform` on the same data
(`model.py` line 58). -/
def StandardScaler.fit_transform (X : List (List ℚ)) :
    Except MLError (Scaler × List (List ℚ)) :=
  match StandardScaler.fitFn X with
  | .error e => .error e
  | .ok sc =>
    match sc.transformFn X with
    | .error e => .error e
    | .ok Xs => .ok (sc, Xs)

/-! ## Ensemble classifier (sklearn `RandomForestClassifier`,
`model.py` lines 33-40).

The classifier itself is external library code; its fitted data model and
prediction rule are embedded here following the spec's description of the
tree ensemble (bootstrap samples, Gini splits, leaf class histograms,
probability averaging, arg-max prediction with lowest-index tie break),
which matches sklearn's semantics. -/

/-- Hyperparameters passed to `RandomForestClassifier(...)` in `__init__`. -/
structure Hyper where
  nEstimators : Nat
  maxDepth : Nat
  minSamplesSplit : Nat
  minSamplesLeaf : Nat
  seed : Nat
  deriving DecidableEq, Repr

/-- A fitted decision tree: internal nodes split on `row[feat] <= thr`
(left on ≤, as in sklearn), leaves store the class-count histogram of the
training samples that reached them. -/
inductive DTree
  | leaf (hist : List Nat)
  | node (feat : Nat) (thr : ℚ) (lo hi : DTree)
  deriving DecidableEq, Repr

/-- Route a row through a tree to its leaf histogram. -/
def DTree.route : DTree → List ℚ → List Nat
  | .leaf h, _ => h
  | .node f thr lo hi, row => if row.getD f 0 ≤ thr then lo.route row else hi.route row

/-- Fitted forest state: `classes_` (sorted distinct labels seen in `y`),
`n_features_in_`, and the trees. -/
structure Forest where
  classes : List Nat
  nFeatures : Nat
  trees : List DTree
  deriving DecidableEq, Repr

/-- A leaf histogram normalized to a probability vector. -/
def normalizeHist (h : List Nat) : List ℚ :=
  h.map (fun c : Nat => (c : ℚ) / (h.sum : ℚ))

/-- Componentwise sum of a list of length-`C` vectors. -/
def vecSum (C : Nat) (vs : List (List ℚ)) : List ℚ :=
  vs.foldr (fun v acc => List.zipWith (· + ·) v acc) (List.replicate C 0)

def argmaxStep (l : List ℚ) (b i : Nat) : Nat := if l.getD b 0 < l.getD i 0 then i else b

/-- `np.argmax`: index of the first (lowest-index) maximum entry. -/
def argmaxIdx (l : List ℚ) : Nat := (List.range l.length).foldl (argmaxStep l) 0

/-- `predict_proba` for one row: the average over trees of each reached
leaf's normalized class histogram. -/
def Forest.probaRow (fr : Forest) (row : List ℚ) : List ℚ :=
  (vecSum fr.classes.length (fr.trees.map (fun t => normalizeHist (t.route row)))).map
    (fun q => q / (fr.trees.length : ℚ))

/-- `predict` for one row: `classes_[argmax(proba)]`. -/
def Forest.predictRow (fr : Forest) (row : List ℚ) : Nat :=
  fr.classes.getD (argmaxIdx (fr.probaRow row)) 0

/-- The `RandomForestClassifier` object: constructor hyperparameters plus the
fitted state (`none` before `fit`). -/
structure RandomForestClassifier where
  hyper : Hyper
  fitted : Option Forest
  deriving DecidableEq, Repr

def RandomForestClassifier.predictArr (c : RandomForestClassifier)
    (Xs : List (List ℚ)) : Except MLError (List Nat) :=
  match c.fitted with
  | none => .error .notFitted
  | some fr =>
    if Xs.all (fun r => r.length == fr.nFeatures) then .ok (Xs.map fr.predictRow)
    else .error .dimensionMismatch

def RandomForestClassifier.probaArr (c : RandomForestClassifier)
    (Xs : List (List ℚ)) : Except MLError (List (List ℚ)) :=
  match c.fitted with
  | none => .error .notFitted
  | some fr =>
    if Xs.all (fun r => r.length == fr.nFeatures) then .ok (Xs.map fr.probaRow)
    else .error .dimensionMismatch

/-! ### Fitting the forest.

Modelled from the spec: the body of sklearn's `RandomForestClassifier.fit`
is external library code not present in the repository; the construction
below follows the spec's §4.2 description — per tree, a bootstrap sample
drawn from a pseudo-random stream derived deterministically from the seed
and the tree index, recursive best-Gini splits over a random feature subset
of size `max 1 (sqrt F)`, first-encountered candidate winning ties, growth
stopped at `max_depth` / `min_samples_split` / `min_samples_leaf` / purity.
Crucially (and faithfully to sklearn), `fit` validates only shape — it
performs no minimum-class-count check. -/

def lcgNext (s : Nat) : Nat := (6364136223846793005 * s + 1442695040888963407) % 2 ^ 64

/-- Draw `k` pseudo-random naturals below `F`, threading the generator. -/
def drawNats (F : Nat) : Nat → Nat → List Nat × Nat
  | 0, rng => ([], rng)
  | k + 1, rng =>
    let r := lcgNext rng
    let rest := drawNats F k r
    ((r % F) :: rest.1, rest.2)

def insertSorted (a : Nat) : List Nat → List Nat
  | [] => [a]
  | b :: t => if a ≤ b then a :: b :: t else b :: insertSorted a t

def sortNat (l : List Nat) : List Nat := l.foldr insertSorted []

/-- Class-count histogram of a label list over a fixed class order. -/
def histOf (classes ys : List Nat) : List Nat := classes.map (fun c => ys.count c)

def giniHist (h : List Nat) : ℚ :=
  if h.sum = 0 then 0 else 1 - (h.map (fun c => ((c : ℚ) / (h.sum : ℚ)) ^ 2)).sum

def splitScore (classes : List Nat) (rows : List (List ℚ × Nat)) : ℚ :=
  (rows.length : ℚ) * giniHist (histOf classes (rows.map (fun r => r.2)))

/-- Best (feature, threshold) candidate by minimal child-weighted Gini;
candidates enumerated in a fixed order, first strictly better one wins. -/
def bestSplit (hp : Hyper) (classes : List Nat) (rows : List (List ℚ × Nat))
    (featIdxs : List Nat) : Option (Nat × ℚ) :=
  let cands := featIdxs.flatMap
    (fun f => ((rows.map (fun r => r.1.getD f 0)).dedup).map (fun t => (f, t)))
  (cands.foldl (fun best c =>
    let pr := rows.partition (fun r => r.1.getD c.1 0 ≤ c.2)
    if pr.1.length < hp.minSamplesLeaf ∨ pr.2.length < hp.minSamplesLeaf then best
    else
      let s := splitScore classes pr.1 + splitScore classes pr.2
      match best with
      | none => some (c.1, c.2, s)
      | some b => if s < b.2.2 then some (c.1, c.2, s) else best) none).map
    (fun b => (b.1, b.2.1))

/-- Grow one tree; `fuel` is the remaining depth budget (`max_depth`). -/
def growTree (hp : Hyper) (classes : List Nat) :
    Nat → List (List ℚ × Nat) → Nat → DTree × Nat
  | 0, rows, rng => (.leaf (histOf classes (rows.map (fun r => r.2))), rng)
  | fuel + 1, rows, rng =>
    let ys := rows.map (fun r => r.2)
    if rows.length < hp.minSamplesSplit ∨ ys.dedup.length ≤ 1 then
      (.leaf (histOf classes ys), rng)
    else
      let F := (rows.headD ([], 0)).1.length
      let dr := drawNats F (max 1 (Nat.sqrt F)) rng
      match bestSplit hp classes rows dr.1.dedup with
      | none => (.leaf (histOf classes ys), dr.2)
      | some ft =>
        let pr := rows.partition (fun r => r.1.getD ft.1 0 ≤ ft.2)
        let lo := growTree hp classes fuel pr.1 dr.2
        let hi := growTree hp classes fuel pr.2 lo.2
        (.node ft.1 ft.2 lo.1 hi.1, hi.2)

/-- `RandomForestClassifier.fit`: shape validation (`check_X_y`) then the
deterministic, seed-derived forest construction described above.  Note that
a label vector with a single distinct class is accepted. -/
def RandomForestClassifier.fitFn (hp : Hyper) (X : List (List ℚ)) (y : List Nat) :
    Except MLError Forest :=
  if X.length = 0 ∨ matrixWidth X = 0 then .error .invalidInput
  else if y.length ≠ X.length then .error .invalidInput
  else
    .ok { classes := sortNat y.dedup,
          nFeatures := matrixWidth X,
          trees := (List.range hp.nEstimators).map (fun i =>
            let dr := drawNats X.length X.length (lcgNext (hp.seed + i))
            (growTree hp (sortNat y.dedup) hp.maxDepth
              (dr.1.map (fun j => (X.getD j [], y.getD j 0))) dr.2).1) }

/-! ## The `RandomForestModel` class (`model.py` lines 22-115) -/

/-- In-memory state of a `RandomForestModel` instance: the classifier object
(`self.model`), the scaler object (`self.scaler`) and the metrics dict
(`self.metrics`). -/
structure RandomForestModel where
  model : RandomForestClassifier
  scaler : StandardScaler
  metrics : List (String × ℚ)
  deriving DecidableEq, Repr

def defaultHyper : Hyper :=
  { nEstimators := N_ESTIMATORS, maxDepth := MAX_DEPTH,
    minSamplesSplit := MIN_SAMPLES_SPLIT, minSamplesLeaf := MIN_SAMPLES_LEAF,
    seed := RANDOM_STATE }

/-- `RandomForestModel.__init__` (lines 27-45): fresh unfitted classifier and
scaler, empty metrics dict. -/
def mkRandomForestModel (hp : Hyper) : RandomForestModel :=
  { model := { hyper := hp, fitted := none },
    scaler := { fitted := none },
    metrics := [] }

/-- `RandomForestModel.train` (lines 47-63): `scaler.fit_transform` on the
training data, then `model.fit` on the scaled data.  No validation of its
own; any error comes from the sklearn calls.  Nothing is written to disk. -/
def RandomForestModel.train (m : RandomForestModel) (X : List (List ℚ)) (y : List Nat) :
    Except MLError RandomForestModel :=
  match StandardScaler.fit_transform X with
  | .error e => .error e
  | .ok scXs =>
    match RandomForestClassifier.fitFn m.model.hyper scXs.2 y with
    | .error e => .error e
    | .ok fr =>
      .ok { m with scaler := { fitted := some scXs.1 },
                   model := { m.model with fitted := some fr } }

/-- `RandomForestModel.predict` (lines 65-76): `scaler.transform` then
`model.predict`.  Pure in the model state. -/
def RandomForestModel.predict (m : RandomForestModel) (X : List (List ℚ)) :
    Except MLError (List Nat) :=
  match m.scaler.transform X with
  | .error e => .error e
  | .ok Xs => m.model.predictArr Xs

/-- `RandomForestModel.predict_proba` (lines 78-89). -/
def RandomForestModel.predict_proba (m : RandomForestModel) (X : List (List ℚ)) :
    Except MLError (List (List ℚ)) :=
  match m.scaler.transform X with
  | .error e => .error e
  | .ok Xs => m.model.probaArr Xs

/-! ## Evaluation metrics (sklearn functions called at lines 104-109) -/

/-- The label set sklearn's metrics use by default: the sorted distinct union
of true and predicted labels. -/
def labelsOf (yt yp : List Nat) : List Nat := sortNat (yt ++ yp).dedup

/-- True positives of class `c` over aligned (actual, predicted) pairs. -/
def tpCount (yt yp : List Nat) (c : Nat) : Nat :=
  (yt.zip yp).countP (fun q => q.1 == c && q.2 == c)

/-- Per-class precision with sklearn's `zero_division=0` policy: a class
never predicted contributes `0`, not an error. -/
def precClass (yt yp : List Nat) (c : Nat) : ℚ :=
  if yp.count c = 0 then 0 else (tpCount yt yp c : ℚ) / (yp.count c : ℚ)

/-- Per-class recall with the `zero_division=0` policy. -/
def recClass (yt yp : List Nat) (c : Nat) : ℚ :=
  if yt.count c = 0 then 0 else (tpCount yt yp c : ℚ) / (yt.count c : ℚ)

/-- Per-class F1 (harmonic mean of precision and recall, `0` when both are). -/
def f1Class (yt yp : List Nat) (c : Nat) : ℚ :=
  if precClass yt yp c + recClass yt yp c = 0 then 0
  else 2 * precClass yt yp c * recClass yt yp c / (precClass yt yp c + recClass yt yp c)

/-- `np.average(xs, weights=ws)` as sklearn's weighted averaging uses it. -/
def npAverage (xs ws : List ℚ) : ℚ := (List.zipWith (· * ·) ws xs).sum / ws.sum

/-- The weight vector for `average='weighted'`: each class's support (count
of true occurrences in `actual`). -/
def supportWeights (yt yp : List Nat) : List ℚ :=
  (labelsOf yt yp).map (fun c => (yt.count c : ℚ))

def precision_weighted (yt yp : List Nat) : ℚ :=
  npAverage ((labelsOf yt yp).map (precClass yt yp)) (supportWeights yt yp)

def recall_weighted (yt yp : List Nat) : ℚ :=
  npAverage ((labelsOf yt yp).map (recClass yt yp)) (supportWeights yt yp)

def f1_weighted (yt yp : List Nat) : ℚ :=
  npAverage ((labelsOf yt yp).map (f1Class yt yp)) (supportWeights yt yp)

def accuracy_score (yt yp : List Nat) : ℚ :=
  ((yt.zip yp).countP (fun q => q.1 == q.2) : ℚ) / (yt.length : ℚ)

/-- The metric values of the dict built at `model.py` lines 104-109 (keys in
source order), for actual labels `yt` and predicted labels `yp`. -/
def metricsList (yt yp : List Nat) : List (String × ℚ) :=
  [("accuracy", accuracy_score yt yp),
   ("precision", precision_weighted yt yp),
   ("recall", recall_weighted yt yp),
   ("f1", f1_weighted yt yp)]

/-- The metrics dict computation at `model.py` lines 104-109: each sklearn
metric call validates with `check_consistent_length`, raising `ValueError`
when the actual and predicted label vectors differ in length. -/
def computeMetrics (yt yp : List Nat) : Except MLError (List (String × ℚ)) :=
  if yt.length ≠ yp.length then .error .invalidInput
  else .ok (metricsList yt yp)

/-- `RandomForestModel.evaluate` (lines 91-115): predict on the test set,
store and return the metrics dict. -/
def RandomForestModel.evaluate (m : RandomForestModel) (X : List (List ℚ)) (y : List Nat) :
    Except MLError (RandomForestModel × List (String × ℚ)) :=
  match m.predict X with
  | .error e => .error e
  | .ok yp =>
    match computeMetrics y yp with
    | .error e => .error e
    | .ok mets => .ok ({ m with metrics := mets }, mets)

/-! ## Persistence (`save` lines 117-148, `load` lines 150-192) -/

/-- The bytes of the metrics file: either well-formed JSON for a flat
key→scalar dict (what `json.dump` writes) or malformed text. -/
inductive MetricsJson
  | validJson (m : List (String × ℚ))
  | malformed
  deriving DecidableEq, Repr

/-- The deserialized content of a completely-written artifact file:
`pickle.dump` of the classifier, `pickle.dump` of the scaler, or the
metrics JSON text.  Pickling is modelled as the identity on the object. -/
inductive Artifact
  | modelA (c : RandomForestClassifier)
  | scalerA (s : StandardScaler)
  | metricsA (j : MetricsJson)
  deriving DecidableEq, Repr

/-- A file on disk: either completely written, or torn (opened/truncated but
not yet fully written when the process stopped). -/
inductive DiskFile
  | complete (a : Artifact)
  | inProgress
  deriving DecidableEq, Repr

/-- The file system, as a path→file association list; the head entry for a
path is its current content. -/
abbrev Disk := List (String × DiskFile)

def diskRead : Disk → String → Option DiskFile
  | [], _ => none
  | e :: rest, p => if e.1 = p then some e.2 else diskRead rest p

/-- Primitive file-system steps performed by `save`.  `beginWrite p` is
`open(p, 'wb')` — it truncates the file in place, leaving it torn until the
matching `endWrite` completes; there is no write-to-temp or rename step
anywhere in the source. -/
inductive FsOp
  | beginWrite (path : String)
  | endWrite (path : String) (a : Artifact)
  deriving DecidableEq, Repr

def applyOp (d : Disk) : FsOp → Disk
  | .beginWrite p => (p, .inProgress) :: d
  | .endWrite p a => (p, .complete a) :: d

def applyOps (ops : List FsOp) (d : Disk) : Disk := ops.foldl applyOp d

/-- The file-system steps of `RandomForestModel.save` (lines 126-148), in
source order: model pickle, preprocessor pickle, metrics JSON — each an
in-place open followed by a write. -/
def saveOps (m : RandomForestModel) (mp pp tp : String) : List FsOp :=
  [.beginWrite mp, .endWrite mp (.modelA m.model),
   .beginWrite pp, .endWrite pp (.scalerA m.scaler),
   .beginWrite tp, .endWrite tp (.metricsA (.validJson m.metrics))]

/-- `RandomForestModel.save`: run all the file-system steps. -/
def RandomForestModel.save (m : RandomForestModel) (d : Disk) (mp pp tp : String) : Disk :=
  applyOps (saveOps m mp pp tp) d

/-- The disk state after `save` crashes having completed only the first `k`
file-system steps. -/
def crashAtStep (m : RandomForestModel) (d : Disk) (mp pp tp : String) (k : Nat) : Disk :=
  applyOps ((saveOps m mp pp tp).take k) d

/-- Path `p` holds a partially-written file on disk `d`. -/
def tornAt (d : Disk) (p : String) : Prop := diskRead d p = some DiskFile.inProgress

instance (d : Disk) (p : String) : Decidable (tornAt d p) := by
  unfold tornAt; infer_instance

/-- No path on `d` holds a partially-written file. -/
def noTorn (d : Disk) : Prop := ∀ p, diskRead d p ≠ some DiskFile.inProgress

/-- The warning `load` logs when the metrics file is absent (line 189). -/
def metricsWarning (tp : String) : String := "Metrics file not found at " ++ tp

/-- `RandomForestModel.load` (lines 150-192): a fresh instance, then the
classifier and preprocessor pickles are read — a missing file raises
`FileNotFoundError` — then the metrics JSON is read, with only
`FileNotFoundError` caught (degrading to an empty dict plus a logged
warning); a present-but-malformed metrics file propagates its JSON error.
Returns the loaded instance together with the warnings logged.
A torn or wrongly-typed file surfaces as a deserialization error (for a
foreign pickle at the model or preprocessor path CPython would defer the
failure to first use; no claim depends on that corner). -/
def RandomForestModel.load (d : Disk) (mp pp tp : String) :
    Except MLError (RandomForestModel × List String) :=
  match diskRead d mp with
  | none => .error (.fileNotFound mp)
  | some (.complete (.modelA c)) =>
    match diskRead d pp with
    | none => .error (.fileNotFound pp)
    | some (.complete (.scalerA s)) =>
      match diskRead d tp with
      | none =>
        .ok ({ mkRandomForestModel defaultHyper with
                 model := c, scaler := s, metrics := [] }, [metricsWarning tp])
      | some (.complete (.metricsA (.validJson mets))) =>
        .ok ({ mkRandomForestModel defaultHyper with
                 model := c, scaler := s, metrics := mets }, [])
      | some (.complete (.metricsA .malformed)) => .error .jsonDecode
      | some _ => .error .unpickleErr
    | some _ => .error .unpickleErr
  | some _ => .error .unpickleErr

/-! ## Well-formedness of fitted forests.

A forest produced by fitting has at least one tree, and every leaf stores
the class histogram of a nonempty set of training samples, indexed by the
`C` classes seen at training. -/

/-- Every leaf histogram has length `C` and a positive total count. -/
def DTree.leavesWF (C : Nat) : DTree → Bool
  | .leaf h => (h.length == C) && (h.sum != 0)
  | .node _ _ lo hi => lo.leavesWF C && hi.leavesWF C

def forestWF (fr : Forest) : Bool :=
  (fr.trees.length != 0) && fr.trees.all (fun t => t.leavesWF fr.classes.length)

/-- A small concretely fitted model state (2 features, classes `{0, 1}`, one
single-leaf tree), used to exercise the pipeline at concrete inputs. -/
def exampleFittedModel : RandomForestModel :=
  { model := { hyper := defaultHyper,
               fitted := some { classes := [0, 1], nFeatures := 2,
                                trees := [DTree.leaf [1, 1]] } },
    scaler := { fitted := some { mean := [0, 0], scale := [1, 1] } },
    metrics := [] }

/-! # Lemmas and claim theorems -/

/-! ## Generic list arithmetic lemmas -/

theorem listSum_const {l : List ℚ} {a : ℚ} (h : ∀ x ∈ l, x = a) :
    l.sum = a * l.length := by
  induction l with
  | nil => simp
  | cons x t ih =>
    have hx : x = a := h x (by simp)
    have ht : t.sum = a * t.length := ih (fun y hy => h y (by simp [hy]))
    simp only [List.sum_cons, hx, ht, List.length_cons]
    push_cast
    ring

theorem meanQ_const {l : List ℚ} {a : ℚ} (hl : l ≠ []) (h : ∀ x ∈ l, x = a) :
    meanQ l = a := by
  have hn : (l.length : ℚ) ≠ 0 := by
    have : l.length ≠ 0 := fun hc => hl (List.length_eq_zero.mp hc)
    exact_mod_cast this
  unfold meanQ
  rw [listSum_const h]
  field_simp

theorem meanQ_zero {l : List ℚ} (h : ∀ y ∈ l, y = 0) : meanQ l = 0 := by
  unfold meanQ
  rw [listSum_const h]
  simp

theorem varianceQ_const {l : List ℚ} (hl : l ≠ []) (h : ∀ x ∈ l, x = l.headD 0) :
    varianceQ l = 0 := by
  have hm : meanQ l = l.headD 0 := meanQ_const hl h
  have hz : ∀ y ∈ l.map (fun x => (x - meanQ l) ^ 2), y = 0 := by
    intro y hy
    rcases List.mem_map.mp hy with ⟨x, hx, rfl⟩
    rw [h x hx, hm]
    ring
  unfold varianceQ
  exact meanQ_zero hz

theorem ratSqrt_zero : ratSqrt 0 = 0 := by
  simp [ratSqrt, Int.sqrt]

theorem mkScale_ne_zero (v : ℚ) : mkScale v ≠ 0 := by
  unfold mkScale
  split
  · norm_num
  · assumption

theorem mkScale_zero : mkScale 0 = 1 := by
  unfold mkScale
  rw [if_pos ratSqrt_zero]

/-! ## C8: constant features get scale 1; no divide-by-zero after fit -/

/-- C8: for every non-empty training matrix `X` with a positive feature
count, fitting the preprocessor succeeds; every entry of the fitted divisor
vector `scale_` is nonzero (so `transform` never divides by zero), and for
any constant feature (zero standard deviation) the substituted divisor is
exactly `1`. -/
theorem scaler_fit_constant_feature_safe (X : List (List ℚ))
    (h1 : X ≠ []) (h2 : matrixWidth X ≠ 0) :
    ∃ sc, StandardScaler.fitFn X = .ok sc ∧
      sc.scale.length = matrixWidth X ∧
      (∀ s ∈ sc.scale, s ≠ 0) ∧
      (∀ j, j < matrixWidth X → (∀ x ∈ col X j, x = (col X j).headD 0) →
        sc.scale.getD j 0 = 1) := by
  have hlen : ¬ (X.length = 0 ∨ matrixWidth X = 0) := by
    push_neg
    exact ⟨fun hc => h1 (List.length_eq_zero.mp hc), h2⟩
  refine ⟨_, by rw [StandardScaler.fitFn, if_neg hlen], ?_, ?_, ?_⟩
  · simp
  · intro s hs
    rcases List.mem_map.mp hs with ⟨j, _, rfl⟩
    exact mkScale_ne_zero _
  · intro j hj hconst
    have hcol : col X j ≠ [] := by
      have : (col X j).length = X.length := List.length_map _ _
      intro hc
      exact h1 (List.length_eq_zero.mp (by rw [← this, hc, List.length_nil]))
    have hj2 : j < ((List.range (matrixWidth X)).map
        (fun j => mkScale (varianceQ (col X j)))).length := by simpa using hj
    rw [List.getD_eq_getElem _ _ hj2, List.getElem_map, List.getElem_range,
      varianceQ_const hcol hconst, mkScale_zero]

/-! ## C6: width mismatch at inference fails with the dimension condition -/

/-- C6: for a model whose preprocessor was fitted with feature count
`F = sc.mean.length`, calling `predict` on a row of any other width fails
with the dimension-mismatch condition (sklearn's `n_features_in_` check in
`scaler.transform`) instead of returning labels.  The embedded `predict` is
a pure function of the model state — as in the source, which assigns
nothing to `self` — so the failure cannot alter the artifact's state. -/
theorem predict_dimension_mismatch (m : RandomForestModel) (sc : Scaler) (row : List ℚ)
    (hsc : m.scaler.fitted = some sc) (hw : row.length ≠ sc.mean.length) :
    m.predict [row] = .error .dimensionMismatch := by
  have hall : ([row].all (fun r => r.length == sc.mean.length)) = false := by
    simp [hw]
  have htr : m.scaler.transform [row] = .error .dimensionMismatch := by
    unfold StandardScaler.transform
    rw [hsc]
    show sc.transformFn [row] = _
    unfold Scaler.transformFn
    rw [if_neg (by simp : ¬ ([row] : List (List ℚ)).length = 0), hall]
    simp
  unfold RandomForestModel.predict
  rw [htr]

/-- Witness for C6: a model fitted with `F = 2` rejects a width-1 row. -/
theorem predict_dimension_mismatch_witness :
    RandomForestModel.predict
      { model := { hyper := defaultHyper, fitted := none },
        scaler := { fitted := some { mean := [0, 0], scale := [1, 1] } },
        metrics := [] } [[1]] = .error .dimensionMismatch :=
  predict_dimension_mismatch _ { mean := [0, 0], scale := [1, 1] } [1] rfl (by decide)

/-! ## C4: two-run determinism of training -/

/-- C4: two separately constructed models with identical hyperparameters and
seed, trained on identical data, are indistinguishable: the training results
are equal, the fitted forests are bit-identical, and `predict` and
`predict_proba` agree on every input.  In this embedding the whole training
pipeline — including the per-tree pseudo-random streams, which are derived
deterministically from the seed and the tree index — is a function of
`(hyperparameters, seed, X, y)` alone, exactly because the source passes
`random_state` into the classifier and uses no other randomness source. -/
theorem train_deterministic_two_runs (hp : Hyper) (m1 m2 : RandomForestModel)
    (X : List (List ℚ)) (y : List Nat)
    (h1 : m1 = mkRandomForestModel hp) (h2 : m2 = mkRandomForestModel hp) :
    m1.train X y = m2.train X y
    ∧ (m1.train X y).map (fun m => m.model) = (m2.train X y).map (fun m => m.model)
    ∧ (∀ Xq, (m1.train X y).map (fun m => m.predict Xq)
          = (m2.train X y).map (fun m => m.predict Xq))
    ∧ (∀ Xq, (m1.train X y).map (fun m => m.predict_proba Xq)
          = (m2.train X y).map (fun m => m.predict_proba Xq)) := by
  subst h1
  subst h2
  exact ⟨rfl, rfl, fun _ => rfl, fun _ => rfl⟩

/-- Witness for C4 at concrete data. -/
theorem train_deterministic_two_runs_witness :
    (mkRandomForestModel defaultHyper).train [[1], [2]] [0, 1]
      = (mkRandomForestModel defaultHyper).train [[1], [2]] [0, 1]
    ∧ ((mkRandomForestModel defaultHyper).train [[1], [2]] [0, 1]).map (fun m => m.model)
      = ((mkRandomForestModel defaultHyper).train [[1], [2]] [0, 1]).map (fun m => m.model)
    ∧ (∀ Xq, ((mkRandomForestModel defaultHyper).train [[1], [2]] [0, 1]).map
            (fun m => m.predict Xq)
          = ((mkRandomForestModel defaultHyper).train [[1], [2]] [0, 1]).map
            (fun m => m.predict Xq))
    ∧ (∀ Xq, ((mkRandomForestModel defaultHyper).train [[1], [2]] [0, 1]).map
            (fun m => m.predict_proba Xq)
          = ((mkRandomForestModel defaultHyper).train [[1], [2]] [0, 1]).map
            (fun m => m.predict_proba Xq)) :=
  train_deterministic_two_runs defaultHyper _ _ [[1], [2]] [0, 1] rfl rfl

/-! ## C5: what `train` actually validates -/

/-- `train` fails via the preprocessor's input validation when the feature
count is zero (which also covers an empty `X`). -/
theorem train_width_zero (m : RandomForestModel) (X : List (List ℚ)) (y : List Nat)
    (h : matrixWidth X = 0) : m.train X y = .error .invalidInput := by
  unfold RandomForestModel.train StandardScaler.fit_transform StandardScaler.fitFn
  rw [if_pos (Or.inr h)]

/-- `train` performs no label-distinctness check: for any rectangular
non-empty `X` with a positive feature count and any aligned `y` — including
a `y` with a single distinct class — training succeeds. -/
theorem train_ok_of_shape (m : RandomForestModel) (X : List (List ℚ)) (y : List Nat)
    (h1 : X ≠ []) (h2 : matrixWidth X ≠ 0)
    (hrect : ∀ r ∈ X, r.length = matrixWidth X)
    (hy : y.length = X.length) :
    ∃ m2, m.train X y = .ok m2 := by
  have hno : ¬ (X.length = 0 ∨ matrixWidth X = 0) := by
    push_neg
    exact ⟨fun hc => h1 (List.length_eq_zero.mp hc), h2⟩
  have hfit : StandardScaler.fitFn X = .ok
      { mean := (List.range (matrixWidth X)).map (fun j => meanQ (col X j)),
        scale := (List.range (matrixWidth X)).map (fun j => mkScale (varianceQ (col X j))) } := by
    rw [StandardScaler.fitFn, if_neg hno]
  set sc : Scaler :=
    { mean := (List.range (matrixWidth X)).map (fun j => meanQ (col X j)),
      scale := (List.range (matrixWidth X)).map (fun j => mkScale (varianceQ (col X j))) }
    with hscdef
  have hmean : sc.mean.length = matrixWidth X := by simp [hscdef]
  have hscale : sc.scale.length = matrixWidth X := by simp [hscdef]
  have hall : X.all (fun r => r.length == sc.mean.length) = true := by
    rw [List.all_eq_true]
    intro r hr
    rw [beq_iff_eq, hmean]
    exact hrect r hr
  have hXne0 : ¬ X.length = 0 := fun hc => h1 (List.length_eq_zero.mp hc)
  have htr : sc.transformFn X = .ok (X.map (transformRow sc)) := by
    rw [Scaler.transformFn, if_neg hXne0, if_pos hall]
  have hXslen : (X.map (transformRow sc)).length = X.length := List.length_map _ _
  have hXsW : matrixWidth (X.map (transformRow sc)) = matrixWidth X := by
    rcases X with _ | ⟨x0, Xt⟩
    · exact absurd rfl h1
    · show (transformRow sc x0).length = matrixWidth (x0 :: Xt)
      unfold transformRow
      rw [List.length_zipWith, List.length_zip, hmean, hscale,
        hrect x0 (List.mem_cons_self x0 Xt)]
      simp
  have hno2 : ¬ ((X.map (transformRow sc)).length = 0
      ∨ matrixWidth (X.map (transformRow sc)) = 0) := by
    push_neg
    rw [hXslen, hXsW]
    exact ⟨fun hc => h1 (List.length_eq_zero.mp hc), h2⟩
  have hylen : ¬ (y.length ≠ (X.map (transformRow sc)).length) := by
    rw [hXslen]
    exact fun hc => hc hy
  obtain ⟨fr, hffit⟩ : ∃ fr,
      RandomForestClassifier.fitFn m.model.hyper (X.map (transformRow sc)) y = .ok fr := by
    rw [RandomForestClassifier.fitFn, if_neg hno2, if_neg hylen]
    exact ⟨_, rfl⟩
  have hdone : m.train X y = .ok { m with scaler := { fitted := some sc }, model := { m.model with fitted := some fr } } := by
    unfold RandomForestModel.train StandardScaler.fit_transform
    simp only [hfit, htr, hffit]
  exact ⟨_, hdone⟩

/-- C5, counterexample to the claim as stated: a training set with a single
distinct class (fewer than 2) on which `train` succeeds instead of failing
with an `InvalidTrainingData` condition. -/
theorem train_single_class_accepted :
    ([0, 0, 0, 0] : List Nat).dedup.length < 2
    ∧ ∃ m2, (mkRandomForestModel defaultHyper).train [[1], [2], [3], [4]] [0, 0, 0, 0]
        = .ok m2 :=
  ⟨by decide,
   train_ok_of_shape (mkRandomForestModel defaultHyper) [[1], [2], [3], [4]] [0, 0, 0, 0]
     (by decide) (by decide) (by decide) (by decide)⟩

/-- C5 (amended): `train` validates only shape, not label diversity: with a
feature count of 0 it fails with the input-validation condition, while a
degenerate label set (fewer than 2 distinct classes) is accepted and trains
successfully; `train` itself never touches the disk, so nothing is persisted
by a failed (or successful) `train` call. -/
theorem train_validation_behavior (m : RandomForestModel) (X : List (List ℚ)) (y : List Nat) :
    (matrixWidth X = 0 → m.train X y = .error .invalidInput)
    ∧ (X ≠ [] → matrixWidth X ≠ 0 → (∀ r ∈ X, r.length = matrixWidth X) →
        y.length = X.length → ∃ m2, m.train X y = .ok m2) :=
  ⟨train_width_zero m X y, train_ok_of_shape m X y⟩

/-- Witness for C5: the zero-feature case fails, the rectangular case (here
with a single class) succeeds. -/
theorem train_validation_behavior_witness :
    (mkRandomForestModel defaultHyper).train [[], []] [0, 1] = .error .invalidInput
    ∧ ∃ m2, (mkRandomForestModel defaultHyper).train [[5], [6]] [0, 0] = .ok m2 :=
  ⟨(train_validation_behavior (mkRandomForestModel defaultHyper) [[], []] [0, 1]).1 (by decide),
   (train_validation_behavior (mkRandomForestModel defaultHyper) [[5], [6]] [0, 0]).2
     (by decide) (by decide) (by decide) (by decide)⟩

/-! ## Arithmetic lemmas for probability vectors -/

theorem sum_map_div (l : List ℚ) (d : ℚ) :
    (l.map (fun x => x / d)).sum = l.sum / d := by
  induction l with
  | nil => simp
  | cons x t ih => simp [ih, add_div]

theorem sum_map_castDiv (h : List Nat) (T : ℚ) :
    (h.map (fun c : Nat => (c : ℚ) / T)).sum = (h.sum : ℚ) / T := by
  induction h with
  | nil => simp
  | cons c t ih =>
    simp only [List.map_cons, List.sum_cons, ih, List.sum_cons]
    push_cast
    rw [add_div]

theorem normalizeHist_length (h : List Nat) : (normalizeHist h).length = h.length :=
  List.length_map _ _

theorem normalizeHist_sum (h : List Nat) (hpos : h.sum ≠ 0) :
    (normalizeHist h).sum = 1 := by
  unfold normalizeHist
  rw [sum_map_castDiv]
  exact div_self (by exact_mod_cast hpos)

theorem sum_zipWith_add (a : List ℚ) :
    ∀ b : List ℚ, a.length = b.length →
      (List.zipWith (· + ·) a b).sum = a.sum + b.sum := by
  induction a with
  | nil =>
    intro b hb
    rw [List.length_nil] at hb
    rw [(List.length_eq_zero.mp hb.symm : b = [])]
    simp
  | cons x t ih =>
    intro b hb
    rcases b with _ | ⟨y, u⟩
    · simp at hb
    · simp only [List.zipWith_cons_cons, List.sum_cons]
      rw [ih u (by simpa using hb)]
      ring

theorem vecSum_length (C : Nat) (vs : List (List ℚ)) (h : ∀ v ∈ vs, v.length = C) :
    (vecSum C vs).length = C := by
  induction vs with
  | nil => simp [vecSum]
  | cons v t ih =>
    have ht : (vecSum C t).length = C := ih (fun w hw => h w (by simp [hw]))
    show (List.zipWith (· + ·) v (vecSum C t)).length = C
    rw [List.length_zipWith, ht, h v (by simp)]
    simp

theorem vecSum_sum (C : Nat) (vs : List (List ℚ)) (h : ∀ v ∈ vs, v.length = C) :
    (vecSum C vs).sum = (vs.map List.sum).sum := by
  induction vs with
  | nil => simp [vecSum]
  | cons v t ih =>
    have ht : (vecSum C t).sum = (t.map List.sum).sum :=
      ih (fun w hw => h w (by simp [hw]))
    have hlen : v.length = (vecSum C t).length := by
      rw [vecSum_length C t (fun w hw => h w (by simp [hw]))]
      exact h v (by simp)
    show (List.zipWith (· + ·) v (vecSum C t)).sum = _
    rw [sum_zipWith_add v (vecSum C t) hlen, ht]
    simp

/-! ## The arg-max characterization of `np.argmax` -/

theorem argmaxAux (l : List ℚ) :
    ∀ n, 0 < n →
      ((List.range n).foldl (argmaxStep l) 0 < n
      ∧ (∀ j, j < n → l.getD j 0 ≤ l.getD ((List.range n).foldl (argmaxStep l) 0) 0)
      ∧ ∀ j, j < (List.range n).foldl (argmaxStep l) 0 →
          l.getD j 0 < l.getD ((List.range n).foldl (argmaxStep l) 0) 0) := by
  intro n
  induction n with
  | zero => omega
  | succ n ih =>
    intro _
    rw [List.range_succ, List.foldl_append, List.foldl_cons, List.foldl_nil]
    rcases Nat.eq_zero_or_pos n with hn | hn
    · subst hn
      simp only [List.range_zero, List.foldl_nil]
      rw [argmaxStep]
      rw [if_neg (lt_irrefl _)]
      refine ⟨Nat.zero_lt_one, ?_, ?_⟩
      · intro j hj
        have : j = 0 := by omega
        subst this
        exact le_refl _
      · intro j hj
        exact absurd hj (Nat.not_lt_zero j)
    · obtain ⟨hA, hle, hlt⟩ := ih hn
      rw [argmaxStep]
      by_cases hc : l.getD ((List.range n).foldl (argmaxStep l) 0) 0 < l.getD n 0
      · rw [if_pos hc]
        refine ⟨Nat.lt_succ_self n, ?_, ?_⟩
        · intro j hj
          rcases Nat.lt_succ_iff_lt_or_eq.mp hj with hj2 | hj2
          · exact le_of_lt (lt_of_le_of_lt (hle j hj2) hc)
          · subst hj2
            exact le_refl _
        · intro j hj
          exact lt_of_le_of_lt (hle j hj) hc
      · rw [if_neg hc]
        refine ⟨Nat.lt_succ_of_lt hA, ?_, hlt⟩
        intro j hj
        rcases Nat.lt_succ_iff_lt_or_eq.mp hj with hj2 | hj2
        · exact hle j hj2
        · subst hj2
          exact le_of_not_lt hc

/-- `argmaxIdx` returns a valid index holding a maximal value, and every
strictly earlier index holds a strictly smaller value — i.e. ties are broken
by the lowest index. -/
theorem argmaxIdx_spec (l : List ℚ) (hl : l ≠ []) :
    argmaxIdx l < l.length
    ∧ (∀ j, j < l.length → l.getD j 0 ≤ l.getD (argmaxIdx l) 0)
    ∧ ∀ j, j < argmaxIdx l → l.getD j 0 < l.getD (argmaxIdx l) 0 :=
  argmaxAux l l.length (List.length_pos.mpr hl)

/-! ## Well-formed forests give probability vectors -/

theorem leavesWF_route {C : Nat} (t : DTree) (h : t.leavesWF C = true) (row : List ℚ) :
    (t.route row).length = C ∧ (t.route row).sum ≠ 0 := by
  induction t with
  | leaf hist =>
    simp only [DTree.leavesWF, Bool.and_eq_true, beq_iff_eq, bne_iff_ne] at h
    exact h
  | node f thr lo hi ihlo ihhi =>
    simp only [DTree.leavesWF, Bool.and_eq_true] at h
    show (if row.getD f 0 ≤ thr then lo.route row else hi.route row).length = C
      ∧ (if row.getD f 0 ≤ thr then lo.route row else hi.route row).sum ≠ 0
    by_cases hc : row.getD f 0 ≤ thr
    · rw [if_pos hc]
      exact ihlo h.1
    · rw [if_neg hc]
      exact ihhi h.2

theorem forestWF_parts (fr : Forest) (h : forestWF fr = true) :
    fr.trees.length ≠ 0 ∧ ∀ t ∈ fr.trees, t.leavesWF fr.classes.length = true := by
  simp only [forestWF, Bool.and_eq_true, bne_iff_ne, List.all_eq_true] at h
  exact h

theorem probaRow_length (fr : Forest) (row : List ℚ) (h : forestWF fr = true) :
    (fr.probaRow row).length = fr.classes.length := by
  obtain ⟨-, hwf⟩ := forestWF_parts fr h
  unfold Forest.probaRow
  rw [List.length_map]
  refine vecSum_length _ _ ?_
  intro v hv
  rcases List.mem_map.mp hv with ⟨t, ht, rfl⟩
  rw [normalizeHist_length]
  exact (leavesWF_route t (hwf t ht) row).1

theorem probaRow_sum (fr : Forest) (row : List ℚ) (h : forestWF fr = true) :
    (fr.probaRow row).sum = 1 := by
  obtain ⟨hne, hwf⟩ := forestWF_parts fr h
  unfold Forest.probaRow
  rw [sum_map_div]
  have hlens : ∀ v ∈ fr.trees.map (fun t => normalizeHist (t.route row)),
      v.length = fr.classes.length := by
    intro v hv
    rcases List.mem_map.mp hv with ⟨t, ht, rfl⟩
    rw [normalizeHist_length]
    exact (leavesWF_route t (hwf t ht) row).1
  rw [vecSum_sum _ _ hlens, List.map_map]
  have hones : ∀ x ∈ fr.trees.map (List.sum ∘ fun t => normalizeHist (t.route row)),
      x = (1 : ℚ) := by
    intro x hx
    rcases List.mem_map.mp hx with ⟨t, ht, rfl⟩
    exact normalizeHist_sum _ (leavesWF_route t (hwf t ht) row).2
  rw [listSum_const hones, List.length_map]
  rw [one_mul]
  exact div_self (by exact_mod_cast hne)

/-! ## C3: the prediction contract -/

/-- C3: for a trained model whose forest carries classes `0..C-1` and whose
preprocessor was fitted at the same feature count `F`, `predict_proba` on
any width-`F` row returns one probability vector of length `C` summing to
exactly `1` (in particular within the claimed `1e-6`), and `predict` returns
exactly the arg-max index of that vector — an index at which the vector is
maximal, every strictly earlier index holding a strictly smaller value (ties
broken by the lowest class index). -/
theorem predict_proba_contract (m : RandomForestModel) (sc : Scaler) (fr : Forest)
    (C : Nat) (row : List ℚ)
    (hsc : m.scaler.fitted = some sc)
    (hfr : m.model.fitted = some fr)
    (hwf : forestWF fr = true)
    (hC : fr.classes = List.range C)
    (hF : fr.nFeatures = sc.mean.length)
    (hFs : sc.scale.length = sc.mean.length)
    (hrow : row.length = sc.mean.length) :
    ∃ p, m.predict_proba [row] = .ok [p]
      ∧ p.length = C
      ∧ p.sum = 1
      ∧ m.predict [row] = .ok [argmaxIdx p]
      ∧ argmaxIdx p < C
      ∧ (∀ j, j < C → p.getD j 0 ≤ p.getD (argmaxIdx p) 0)
      ∧ (∀ j, j < argmaxIdx p → p.getD j 0 < p.getD (argmaxIdx p) 0) := by
  have hall : ([row].all (fun r => r.length == sc.mean.length)) = true := by
    simp [hrow]
  have htr : m.scaler.transform [row] = .ok [transformRow sc row] := by
    unfold StandardScaler.transform
    rw [hsc]
    show sc.transformFn [row] = _
    unfold Scaler.transformFn
    rw [if_neg (by simp : ¬ ([row] : List (List ℚ)).length = 0), hall]
    rfl
  have hlen : (transformRow sc row).length = sc.mean.length := by
    unfold transformRow
    rw [List.length_zipWith, List.length_zip, hFs, hrow]
    simp
  have hall2 : ([transformRow sc row].all (fun r => r.length == fr.nFeatures)) = true := by
    simp [hlen, hF]
  have hproba : m.predict_proba [row] = .ok [fr.probaRow (transformRow sc row)] := by
    unfold RandomForestModel.predict_proba
    rw [htr]
    show m.model.probaArr [transformRow sc row] = _
    unfold RandomForestClassifier.probaArr
    rw [hfr]
    show (if ([transformRow sc row].all (fun r => r.length == fr.nFeatures)) = true
      then _ else _) = _
    rw [hall2]
    rfl
  set p := fr.probaRow (transformRow sc row) with hp
  have hplen : p.length = C := by
    rw [hp, probaRow_length fr _ hwf, hC, List.length_range]
  have hpsum : p.sum = 1 := probaRow_sum fr _ hwf
  have hCpos : 0 < C := by
    obtain ⟨hne, hwfall⟩ := forestWF_parts fr hwf
    rcases hfrt : fr.trees with _ | ⟨t, ts⟩
    · rw [hfrt] at hne
      simp at hne
    · have hroute := leavesWF_route t
        (hwfall t (by rw [hfrt]; exact List.mem_cons_self t ts)) (transformRow sc row)
      rcases Nat.eq_zero_or_pos C with hc0 | hcpos
      · exfalso
        have : (t.route (transformRow sc row)).length = 0 := by
          rw [hroute.1, hC, hc0]
          simp
        have hniltr : t.route (transformRow sc row) = [] := List.length_eq_zero.mp this
        exact hroute.2 (by rw [hniltr]; simp)
      · exact hcpos
  have hpne : p ≠ [] := by
    intro hc
    rw [hc] at hplen
    simp at hplen
    omega
  obtain ⟨hamax, hmax, htie⟩ := argmaxIdx_spec p hpne
  rw [hplen] at hamax hmax
  have hpredict : m.predict [row] = .ok [argmaxIdx p] := by
    unfold RandomForestModel.predict
    rw [htr]
    show m.model.predictArr [transformRow sc row] = _
    unfold RandomForestClassifier.predictArr
    rw [hfr]
    show (if ([transformRow sc row].all (fun r => r.length == fr.nFeatures)) = true
      then _ else _) = _
    rw [hall2]
    show Except.ok [fr.predictRow (transformRow sc row)] = _
    unfold Forest.predictRow
    rw [hC, ← hp]
    have hamax2 : argmaxIdx p < (List.range C).length := by
      rw [List.length_range]
      exact hamax
    rw [List.getD_eq_getElem _ _ hamax2, List.getElem_range]
  exact ⟨p, hproba, hplen, hpsum, hpredict, hamax, hmax, htie⟩

/-- Witness for C3 on a concrete fitted model with `F = 2`, `C = 2`. -/
theorem predict_proba_contract_witness :
    ∃ p, RandomForestModel.predict_proba
        { model := { hyper := defaultHyper,
                     fitted := some { classes := [0, 1], nFeatures := 2,
                                      trees := [DTree.leaf [1, 1],
                                                DTree.node 0 0 (.leaf [2, 0]) (.leaf [0, 2])] } },
          scaler := { fitted := some { mean := [0, 0], scale := [1, 1] } },
          metrics := [] } [[0, 0]] = .ok [p]
      ∧ p.length = 2
      ∧ p.sum = 1
      ∧ RandomForestModel.predict
        { model := { hyper := defaultHyper,
                     fitted := some { classes := [0, 1], nFeatures := 2,
                                      trees := [DTree.leaf [1, 1],
                                                DTree.node 0 0 (.leaf [2, 0]) (.leaf [0, 2])] } },
          scaler := { fitted := some { mean := [0, 0], scale := [1, 1] } },
          metrics := [] } [[0, 0]] = .ok [argmaxIdx p]
      ∧ argmaxIdx p < 2
      ∧ (∀ j, j < 2 → p.getD j 0 ≤ p.getD (argmaxIdx p) 0)
      ∧ (∀ j, j < argmaxIdx p → p.getD j 0 < p.getD (argmaxIdx p) 0) :=
  predict_proba_contract _
    { mean := [0, 0], scale := [1, 1] }
    { classes := [0, 1], nFeatures := 2,
      trees := [DTree.leaf [1, 1], DTree.node 0 0 (.leaf [2, 0]) (.leaf [0, 2])] }
    2 [0, 0] rfl rfl (by decide) (by decide) (by decide) (by decide) (by decide)

/-! ## Counting lemmas for the weighted metrics -/

theorem mem_insertSorted {b a : Nat} : ∀ {l : List Nat},
    b ∈ insertSorted a l ↔ b = a ∨ b ∈ l := by
  intro l
  induction l with
  | nil => simp [insertSorted]
  | cons x t ih =>
    unfold insertSorted
    by_cases hc : a ≤ x
    · rw [if_pos hc]
      simp [List.mem_cons]
    · rw [if_neg hc]
      simp only [List.mem_cons, ih]
      tauto

theorem nodup_insertSorted (a : Nat) : ∀ (l : List Nat),
    l.Nodup → a ∉ l → (insertSorted a l).Nodup := by
  intro l
  induction l with
  | nil =>
    intro _ _
    simp [insertSorted]
  | cons x t ih =>
    intro hnd hna
    unfold insertSorted
    obtain ⟨hxt, hndt⟩ := List.nodup_cons.mp hnd
    by_cases hc : a ≤ x
    · rw [if_pos hc]
      exact List.nodup_cons.mpr ⟨hna, hnd⟩
    · rw [if_neg hc]
      have hat : a ∉ t := fun hc2 => hna (by simp [hc2])
      have hax : a ≠ x := fun hc2 => hna (by simp [hc2])
      refine List.nodup_cons.mpr ⟨?_, ih hndt hat⟩
      intro hmem
      rcases mem_insertSorted.mp hmem with h1 | h2
      · exact hax h1.symm
      · exact hxt h2

theorem mem_sortNat {b : Nat} : ∀ {l : List Nat}, b ∈ sortNat l ↔ b ∈ l := by
  intro l
  induction l with
  | nil => simp [sortNat]
  | cons x t ih =>
    show b ∈ insertSorted x (sortNat t) ↔ _
    rw [mem_insertSorted, ih]
    simp [List.mem_cons]

theorem sortNat_nodup : ∀ (l : List Nat), l.Nodup → (sortNat l).Nodup := by
  intro l
  induction l with
  | nil =>
    intro _
    simp [sortNat]
  | cons x t ih =>
    intro hnd
    obtain ⟨hxt, hndt⟩ := List.nodup_cons.mp hnd
    show (insertSorted x (sortNat t)).Nodup
    exact nodup_insertSorted x (sortNat t) (ih hndt) (fun hc => hxt (mem_sortNat.mp hc))

theorem sum_map_addNat (L : List Nat) (f g : Nat → Nat) :
    (L.map (fun c => f c + g c)).sum = (L.map f).sum + (L.map g).sum := by
  induction L with
  | nil => simp
  | cons b u ih =>
    simp only [List.map_cons, List.sum_cons, ih]
    omega

theorem sum_ite_notMem (a : Nat) : ∀ (L : List Nat), a ∉ L →
    (L.map (fun c => if a == c then 1 else 0)).sum = 0 := by
  intro L
  induction L with
  | nil =>
    intro _
    rfl
  | cons b u ih =>
    intro h
    have hab : (a == b) = false := by
      rw [beq_eq_false_iff_ne]
      exact fun hc => h (by simp [hc])
    have hu : a ∉ u := fun hc => h (by simp [hc])
    rw [List.map_cons, List.sum_cons, hab, ih hu]
    simp

theorem sum_ite_mem (a : Nat) : ∀ (L : List Nat), L.Nodup → a ∈ L →
    (L.map (fun c => if a == c then 1 else 0)).sum = 1 := by
  intro L
  induction L with
  | nil =>
    intro _ hm
    simp at hm
  | cons b u ih =>
    intro hnd hm
    rcases List.mem_cons.mp hm with hab | hau
    · subst hab
      have hnu : a ∉ u := (List.nodup_cons.mp hnd).1
      rw [List.map_cons, List.sum_cons, sum_ite_notMem a u hnu, beq_self_eq_true]
      simp
    · have hab : (a == b) = false := by
        rw [beq_eq_false_iff_ne]
        exact fun hc => (List.nodup_cons.mp hnd).1 (hc ▸ hau)
      rw [List.map_cons, List.sum_cons, hab, ih (List.nodup_cons.mp hnd).2 hau]
      simp

/-- Summing each class's support over any duplicate-free label list covering
the actual labels recovers the total number of actual labels. -/
theorem sum_count_over_superset (yt : List Nat) :
    ∀ L : List Nat, L.Nodup → (∀ a ∈ yt, a ∈ L) →
      (L.map (fun c => yt.count c)).sum = yt.length := by
  induction yt with
  | nil =>
    intro L _ _
    simp
  | cons a t ih =>
    intro L hnd hsub
    simp only [List.count_cons]
    rw [sum_map_addNat, ih L hnd (fun x hx => hsub x (by simp [hx])),
      sum_ite_mem a L hnd (hsub a (by simp))]
    simp

theorem sum_map_castNat (L : List Nat) (f : Nat → Nat) :
    (L.map (fun c : Nat => ((f c : Nat) : ℚ))).sum = (((L.map f).sum : Nat) : ℚ) := by
  induction L with
  | nil => simp
  | cons b u ih =>
    simp only [List.map_cons, List.sum_cons, ih]
    push_cast
    ring

theorem zipWith_mul_map (L : List Nat) (f g : Nat → ℚ) :
    List.zipWith (· * ·) (L.map f) (L.map g) = L.map (fun c => f c * g c) := by
  induction L with
  | nil => rfl
  | cons b u ih => simp [ih]

/-- The total weight used by the weighted average is the length of the
actual label vector. -/
theorem supportWeights_sum (yt yp : List Nat) :
    (supportWeights yt yp).sum = (yt.length : ℚ) := by
  have hnd : (labelsOf yt yp).Nodup := sortNat_nodup _ (List.nodup_dedup _)
  have hsub : ∀ a ∈ yt, a ∈ labelsOf yt yp := by
    intro a ha
    unfold labelsOf
    rw [mem_sortNat]
    exact List.mem_dedup.mpr (List.mem_append_left _ ha)
  unfold supportWeights
  rw [sum_map_castNat, sum_count_over_superset yt _ hnd hsub]

/-- `np.average` with support weights over per-class scores equals the
support-weighted sum divided by the total number of actual labels. -/
theorem npAverage_support (yt yp : List Nat) (f : Nat → ℚ) :
    npAverage ((labelsOf yt yp).map f) (supportWeights yt yp)
      = ((labelsOf yt yp).map (fun c => (yt.count c : ℚ) * f c)).sum / (yt.length : ℚ) := by
  unfold npAverage
  rw [supportWeights_sum]
  unfold supportWeights
  rw [zipWith_mul_map]

/-! ## C9: the evaluator contract -/

/-- On a vector all of whose entries equal its head, the first-max fold
never moves off index `0`. -/
theorem argmaxIdx_const (l : List ℚ) (h : ∀ x ∈ l, x = l.headD 0) :
    argmaxIdx l = 0 := by
  have haux : ∀ n, n ≤ l.length → (List.range n).foldl (argmaxStep l) 0 = 0 := by
    intro n
    induction n with
    | zero =>
      intro _
      rfl
    | succ k ih =>
      intro hk
      rw [List.range_succ, List.foldl_append, List.foldl_cons, List.foldl_nil,
        ih (Nat.le_of_succ_le hk), argmaxStep]
      have h0 : l.getD 0 0 = l.headD 0 := by
        cases l with
        | nil => rfl
        | cons a t => rfl
      have hkl : k < l.length := hk
      have hkv : l.getD k 0 = l.headD 0 := by
        rw [List.getD_eq_getElem _ _ hkl]
        exact h _ (List.getElem_mem hkl)
      rw [h0, hkv, if_neg (lt_irrefl _)]
  exact haux l.length le_rfl

/-- The example fitted model really predicts on a non-empty batch: the zero
row standardizes to the zero row, routes to the lone balanced leaf, both
class probabilities tie, and the lowest-index tie break yields class 0. -/
theorem exampleFittedModel_predict :
    exampleFittedModel.predict [[0, 0]] = .ok [0] := by
  have hconst : ∀ x ∈ Forest.probaRow
      { classes := [0, 1], nFeatures := 2, trees := [DTree.leaf [1, 1]] }
      (transformRow { mean := [0, 0], scale := [1, 1] } [0, 0]),
      x = (Forest.probaRow
        { classes := [0, 1], nFeatures := 2, trees := [DTree.leaf [1, 1]] }
        (transformRow { mean := [0, 0], scale := [1, 1] } [0, 0])).headD 0 := by
    intro x hx
    have hx2 : x ∈ [(((1 : ℕ) : ℚ) / ((2 : ℕ) : ℚ) + 0) / ((1 : ℕ) : ℚ),
                    (((1 : ℕ) : ℚ) / ((2 : ℕ) : ℚ) + 0) / ((1 : ℕ) : ℚ)] := hx
    rcases List.mem_cons.mp hx2 with h1 | h2
    · rw [h1]
      rfl
    · rcases List.mem_cons.mp h2 with h3 | h4
      · rw [h3]
        rfl
      · exact absurd h4 (List.not_mem_nil x)
  have harg : argmaxIdx (Forest.probaRow
      { classes := [0, 1], nFeatures := 2, trees := [DTree.leaf [1, 1]] }
      (transformRow { mean := [0, 0], scale := [1, 1] } [0, 0])) = 0 :=
    argmaxIdx_const _ hconst
  show Except.ok [([0, 1] : List Nat).getD (argmaxIdx (Forest.probaRow
      { classes := [0, 1], nFeatures := 2, trees := [DTree.leaf [1, 1]] }
      (transformRow { mean := [0, 0], scale := [1, 1] } [0, 0]))) 0] = Except.ok [0]
  rw [harg]
  rfl

/-- C9: for every equal-length pair of actual and predicted label vectors,
the metrics computation succeeds and `evaluate` stores and returns the
resulting dict; each of precision, recall, and F1 is the per-class score
combined by a weighted average whose weights are the classes' supports
(counts of true occurrences in the actual labels) — the total weight
equalling the number of actual labels — and a class absent from the
predictions contributes `0` to its precision term (sklearn's
`zero_division=0` policy) rather than raising an error. -/
theorem evaluate_weighted_metrics (yt yp : List Nat) (hlen : yt.length = yp.length) :
    computeMetrics yt yp = .ok (metricsList yt yp)
    ∧ (∀ (m : RandomForestModel) (X : List (List ℚ)), m.predict X = .ok yp →
        m.evaluate X yt = .ok ({ m with metrics := metricsList yt yp },
          metricsList yt yp))
    ∧ metricsList yt yp =
        [("accuracy", accuracy_score yt yp),
         ("precision", precision_weighted yt yp),
         ("recall", recall_weighted yt yp),
         ("f1", f1_weighted yt yp)]
    ∧ precision_weighted yt yp
        = ((labelsOf yt yp).map (fun c => (yt.count c : ℚ) * precClass yt yp c)).sum
          / (yt.length : ℚ)
    ∧ recall_weighted yt yp
        = ((labelsOf yt yp).map (fun c => (yt.count c : ℚ) * recClass yt yp c)).sum
          / (yt.length : ℚ)
    ∧ f1_weighted yt yp
        = ((labelsOf yt yp).map (fun c => (yt.count c : ℚ) * f1Class yt yp c)).sum
          / (yt.length : ℚ)
    ∧ (∀ c, c ∉ yp → precClass yt yp c = 0) := by
  have hcm : computeMetrics yt yp = .ok (metricsList yt yp) := by
    unfold computeMetrics
    rw [if_neg (fun hc => hc hlen)]
  refine ⟨hcm, ?_, rfl, ?_, ?_, ?_, ?_⟩
  · intro m X hpred
    unfold RandomForestModel.evaluate
    rw [hpred]
    show (match computeMetrics yt yp with
      | Except.error e => Except.error e
      | Except.ok mets =>
        Except.ok ({ m with metrics := mets }, mets)) = _
    rw [hcm]
  · exact npAverage_support yt yp (precClass yt yp)
  · exact npAverage_support yt yp (recClass yt yp)
  · exact npAverage_support yt yp (f1Class yt yp)
  · intro c hc
    unfold precClass
    rw [if_pos (List.count_eq_zero.mpr hc)]

/-- Witness for C9: a real prediction on the example fitted model (one
width-2 row, predicted label 0) evaluated against the equal-length actual
labels `[1]`, plus the zero-division clause at the unpredicted class `1`. -/
theorem evaluate_weighted_metrics_witness :
    exampleFittedModel.evaluate [[0, 0]] [1]
      = .ok ({ exampleFittedModel with metrics := metricsList [1] [0] },
             metricsList [1] [0])
    ∧ precClass [1] [0] 1 = 0 :=
  ⟨(evaluate_weighted_metrics [1] [0] (by decide)).2.1 exampleFittedModel [[0, 0]]
      exampleFittedModel_predict,
   (evaluate_weighted_metrics [1] [0] (by decide)).2.2.2.2.2.2 1 (by decide)⟩

/-! ## C1, C10: load semantics for missing or corrupt artifacts -/

/-- C1: for every `load` call, a missing classifier artifact fails with the
model-not-found condition (Python `FileNotFoundError`, the spec's
`ModelNotFound`); a present classifier but missing preprocessor artifact
likewise fails; with both present, a missing metrics artifact is non-fatal —
`load` succeeds, the returned model's metrics snapshot is empty, and a
warning is logged. -/
theorem load_artifact_presence_rules (d : Disk) (mp pp tp : String)
    (c : RandomForestClassifier) (s : StandardScaler) :
    (diskRead d mp = none →
      RandomForestModel.load d mp pp tp = .error (.fileNotFound mp))
    ∧ (diskRead d mp = some (.complete (.modelA c)) → diskRead d pp = none →
      RandomForestModel.load d mp pp tp = .error (.fileNotFound pp))
    ∧ (diskRead d mp = some (.complete (.modelA c)) →
       diskRead d pp = some (.complete (.scalerA s)) →
       diskRead d tp = none →
      RandomForestModel.load d mp pp tp
        = .ok ({ mkRandomForestModel defaultHyper with
                   model := c, scaler := s, metrics := [] }, [metricsWarning tp])) := by
  refine ⟨?_, ?_, ?_⟩
  · intro h1
    simp only [RandomForestModel.load, h1]
  · intro h1 h2
    simp only [RandomForestModel.load, h1, h2]
  · intro h1 h2 h3
    simp only [RandomForestModel.load, h1, h2, h3]

/-- Witness for C1: the three cases at concrete disks. -/
theorem load_artifact_presence_rules_witness :
    RandomForestModel.load [] "m.pkl" "p.pkl" "t.json" = .error (.fileNotFound "m.pkl")
    ∧ RandomForestModel.load
        [("m.pkl", DiskFile.complete (Artifact.modelA { hyper := defaultHyper, fitted := none }))]
        "m.pkl" "p.pkl" "t.json" = .error (.fileNotFound "p.pkl")
    ∧ RandomForestModel.load
        [("m.pkl", DiskFile.complete (Artifact.modelA { hyper := defaultHyper, fitted := none })),
         ("p.pkl", DiskFile.complete (Artifact.scalerA { fitted := none }))]
        "m.pkl" "p.pkl" "t.json"
      = .ok ({ mkRandomForestModel defaultHyper with
                 model := { hyper := defaultHyper, fitted := none },
                 scaler := { fitted := none }, metrics := [] },
             [metricsWarning "t.json"]) :=
  ⟨(load_artifact_presence_rules [] "m.pkl" "p.pkl" "t.json"
      { hyper := defaultHyper, fitted := none } { fitted := none }).1 (by decide),
   (load_artifact_presence_rules
      [("m.pkl", DiskFile.complete (Artifact.modelA { hyper := defaultHyper, fitted := none }))]
      "m.pkl" "p.pkl" "t.json"
      { hyper := defaultHyper, fitted := none } { fitted := none }).2.1 (by decide) (by decide),
   (load_artifact_presence_rules
      [("m.pkl", DiskFile.complete (Artifact.modelA { hyper := defaultHyper, fitted := none })),
       ("p.pkl", DiskFile.complete (Artifact.scalerA { fitted := none }))]
      "m.pkl" "p.pkl" "t.json"
      { hyper := defaultHyper, fitted := none } { fitted := none }).2.2
     (by decide) (by decide) (by decide)⟩

/-- C10: with the classifier and preprocessor artifacts present, a metrics
file that is present but not valid JSON makes `load` fail — the
`json.JSONDecodeError` is not caught (only `FileNotFoundError` is), so it
propagates to the caller. -/
theorem load_malformed_metrics_fails (d : Disk) (mp pp tp : String)
    (c : RandomForestClassifier) (s : StandardScaler)
    (h1 : diskRead d mp = some (.complete (.modelA c)))
    (h2 : diskRead d pp = some (.complete (.scalerA s)))
    (h3 : diskRead d tp = some (.complete (.metricsA .malformed))) :
    RandomForestModel.load d mp pp tp = .error .jsonDecode := by
  simp only [RandomForestModel.load, h1, h2, h3]

/-- Witness for C10 at a concrete disk with a corrupt metrics file. -/
theorem load_malformed_metrics_fails_witness :
    RandomForestModel.load
      [("m.pkl", DiskFile.complete (Artifact.modelA { hyper := defaultHyper, fitted := none })),
       ("p.pkl", DiskFile.complete (Artifact.scalerA { fitted := none })),
       ("t.json", DiskFile.complete (Artifact.metricsA .malformed))]
      "m.pkl" "p.pkl" "t.json" = .error .jsonDecode :=
  load_malformed_metrics_fails _ "m.pkl" "p.pkl" "t.json"
    { hyper := defaultHyper, fitted := none } { fitted := none }
    (by decide) (by decide) (by decide)

/-! ## C2: save/load round trip -/

/-- C2: saving a model to three distinct paths and loading from them yields
exactly the saved state back (pickling is lossless on the fitted estimator
state), so `predict` and `predict_proba` of the loaded model agree with the
original on every input. -/
theorem save_load_roundtrip (m : RandomForestModel) (d : Disk) (mp pp tp : String)
    (h1 : mp ≠ pp) (h2 : mp ≠ tp) (h3 : pp ≠ tp) :
    RandomForestModel.load (m.save d mp pp tp) mp pp tp = .ok (m, [])
    ∧ (∀ X, (RandomForestModel.load (m.save d mp pp tp) mp pp tp).map
        (fun r => r.1.predict X) = .ok (m.predict X))
    ∧ (∀ X, (RandomForestModel.load (m.save d mp pp tp) mp pp tp).map
        (fun r => r.1.predict_proba X) = .ok (m.predict_proba X)) := by
  have hsave : m.save d mp pp tp
      = (tp, .complete (.metricsA (.validJson m.metrics)))
        :: (tp, .inProgress)
        :: (pp, .complete (.scalerA m.scaler))
        :: (pp, .inProgress)
        :: (mp, .complete (.modelA m.model))
        :: (mp, .inProgress) :: d := rfl
  have hm0 : diskRead (m.save d mp pp tp) mp = some (.complete (.modelA m.model)) := by
    rw [hsave]
    simp [diskRead, Ne.symm h1, Ne.symm h2]
  have hp0 : diskRead (m.save d mp pp tp) pp = some (.complete (.scalerA m.scaler)) := by
    rw [hsave]
    simp [diskRead, Ne.symm h3]
  have ht0 : diskRead (m.save d mp pp tp) tp
      = some (.complete (.metricsA (.validJson m.metrics))) := by
    rw [hsave]
    simp [diskRead]
  have hload : RandomForestModel.load (m.save d mp pp tp) mp pp tp = .ok (m, []) := by
    simp only [RandomForestModel.load, hm0, hp0, ht0]
  exact ⟨hload, fun X => by rw [hload]; rfl, fun X => by rw [hload]; rfl⟩

/-- Witness for C2 at a concrete model and distinct paths. -/
theorem save_load_roundtrip_witness :
    RandomForestModel.load
      ((mkRandomForestModel defaultHyper).save [] "m.pkl" "p.pkl" "t.json")
      "m.pkl" "p.pkl" "t.json" = .ok (mkRandomForestModel defaultHyper, [])
    ∧ (∀ X, (RandomForestModel.load
        ((mkRandomForestModel defaultHyper).save [] "m.pkl" "p.pkl" "t.json")
        "m.pkl" "p.pkl" "t.json").map (fun r => r.1.predict X)
      = .ok ((mkRandomForestModel defaultHyper).predict X))
    ∧ (∀ X, (RandomForestModel.load
        ((mkRandomForestModel defaultHyper).save [] "m.pkl" "p.pkl" "t.json")
        "m.pkl" "p.pkl" "t.json").map (fun r => r.1.predict_proba X)
      = .ok ((mkRandomForestModel defaultHyper).predict_proba X)) :=
  save_load_roundtrip (mkRandomForestModel defaultHyper) [] "m.pkl" "p.pkl" "t.json"
    (by decide) (by decide) (by decide)

/-! ## C7: per-artifact write atomicity -/

theorem noTorn_completeWrite (d : Disk) (p : String) (a : Artifact) (h : noTorn d) :
    noTorn ((p, DiskFile.complete a) :: (p, DiskFile.inProgress) :: d) := by
  intro q
  by_cases hq : p = q
  · simp [diskRead, hq]
  · simp only [diskRead, if_neg hq]
    exact h q

/-- C7, counterexample to the claim as stated: a crash between `save`
opening the classifier artifact for writing and completing that write
leaves a partially-written classifier artifact on disk — the source writes
each artifact in place, with no write-to-temp-then-rename step. -/
theorem save_crash_leaves_torn_file :
    tornAt (crashAtStep (mkRandomForestModel defaultHyper) []
      "model.pkl" "preprocessor.pkl" "metrics.json" 1) "model.pkl" := by
  decide

/-- C7 (amended): `save` writes each of the three artifacts in place
(truncate-open, then write), not by a temp-file-and-rename discipline.  A
crash at any artifact boundary — before the first write, between writes, or
after the last — leaves no partially-written artifact, but a crash strictly
inside an artifact's open-to-write window leaves that artifact partially
written on disk. -/
theorem save_atomicity_behavior (m : RandomForestModel) (d : Disk) (mp pp tp : String)
    (hd : noTorn d) :
    noTorn (crashAtStep m d mp pp tp 0)
    ∧ noTorn (crashAtStep m d mp pp tp 2)
    ∧ noTorn (crashAtStep m d mp pp tp 4)
    ∧ noTorn (crashAtStep m d mp pp tp 6)
    ∧ tornAt (crashAtStep m d mp pp tp 1) mp
    ∧ tornAt (crashAtStep m d mp pp tp 3) pp
    ∧ tornAt (crashAtStep m d mp pp tp 5) tp := by
  refine ⟨hd, ?_, ?_, ?_, ?_, ?_, ?_⟩
  · exact noTorn_completeWrite d mp (.modelA m.model) hd
  · exact noTorn_completeWrite _ pp (.scalerA m.scaler)
      (noTorn_completeWrite d mp (.modelA m.model) hd)
  · exact noTorn_completeWrite _ tp (.metricsA (.validJson m.metrics))
      (noTorn_completeWrite _ pp (.scalerA m.scaler)
        (noTorn_completeWrite d mp (.modelA m.model) hd))
  · show diskRead ((mp, DiskFile.inProgress) :: d) mp = some DiskFile.inProgress
    simp [diskRead]
  · show diskRead ((pp, DiskFile.inProgress)
        :: (mp, DiskFile.complete (.modelA m.model))
        :: (mp, DiskFile.inProgress) :: d) pp = some DiskFile.inProgress
    simp [diskRead]
  · show diskRead ((tp, DiskFile.inProgress)
        :: (pp, DiskFile.complete (.scalerA m.scaler))
        :: (pp, DiskFile.inProgress)
        :: (mp, DiskFile.complete (.modelA m.model))
        :: (mp, DiskFile.inProgress) :: d) tp = some DiskFile.inProgress
    simp [diskRead]

/-- Witness for C7's amended statement on the empty disk. -/
theorem save_atomicity_behavior_witness :
    noTorn (crashAtStep (mkRandomForestModel defaultHyper) [] "a.pkl" "b.pkl" "c.json" 0)
    ∧ noTorn (crashAtStep (mkRandomForestModel defaultHyper) [] "a.pkl" "b.pkl" "c.json" 2)
    ∧ noTorn (crashAtStep (mkRandomForestModel defaultHyper) [] "a.pkl" "b.pkl" "c.json" 4)
    ∧ noTorn (crashAtStep (mkRandomForestModel defaultHyper) [] "a.pkl" "b.pkl" "c.json" 6)
    ∧ tornAt (crashAtStep (mkRandomForestModel defaultHyper) [] "a.pkl" "b.pkl" "c.json" 1)
        "a.pkl"
    ∧ tornAt (crashAtStep (mkRandomForestModel defaultHyper) [] "a.pkl" "b.pkl" "c.json" 3)
        "b.pkl"
    ∧ tornAt (crashAtStep (mkRandomForestModel defaultHyper) [] "a.pkl" "b.pkl" "c.json" 5)
        "c.json" :=
  save_atomicity_behavior (mkRandomForestModel defaultHyper) [] "a.pkl" "b.pkl" "c.json"
    (fun p => by simp [diskRead])

/-- Witness for C8 at a concrete matrix whose first feature is constant. -/
theorem scaler_fit_constant_feature_safe_witness :
    ∃ sc, StandardScaler.fitFn [[2, 1], [2, 3]] = .ok sc ∧
      sc.scale.length = matrixWidth [[2, 1], [2, 3]] ∧
      (∀ s ∈ sc.scale, s ≠ 0) ∧
      (∀ j, j < matrixWidth [[2, 1], [2, 3]] →
        (∀ x ∈ col [[2, 1], [2, 3]] j, x = (col [[2, 1], [2, 3]] j).headD 0) →
        sc.scale.getD j 0 = 1) :=
  scaler_fit_constant_feature_safe [[2, 1], [2, 3]] (by decide) (by decide)
